import Mathlib

/-!
A shallow embedding of the constraint-evaluation core of the `datacur8`
repository: the selector expression engine (`internal/selector`), the value
normalizer and the three constraint evaluators together with the top-level
`Evaluate` aggregator (`internal/constraints/constraints.go`), and the
configuration records they consume (`internal/config`).

Modelling conventions:
* Go's `any`-typed parsed data (JSON/YAML/CSV records) is modelled by the
  inductive `Value`; Go maps holding record fields are association lists.
* `fmt.Sprintf("%v", v)` is modelled by `Value.render` (Go prints map keys in
  sorted order).
* The unordered iteration over the Go map `index` in `evalUniqueTypeScope`
  is modelled by an explicit enumeration parameter `enum` applied to the
  insertion-ordered association list; a faithful enumeration is any function
  producing a permutation of its input.
* `sort.Slice` is not stable and guarantees only a sorted permutation,
  deterministically for a given input slice.  That contract is captured by
  `SortsByErrLE`, and order-determinism results quantify over every
  function satisfying it; the concrete `Evaluate` instantiates the sorting
  pass with `List.insertionSort`, one admissible deterministic
  implementation (`EvaluateWith` keeps it abstract).
-/

namespace Datacur8

/-- A parsed JSON/YAML/CSV data value (`any` in the Go source). -/
inductive Value where
  | null
  | bool (b : Bool)
  | int (n : Int)
  | str (s : String)
  | arr (elems : List Value)
  | obj (fields : List (String × Value))

/-- Ordering of map keys used by Go's `fmt` when printing a map. -/
def fieldLE (a b : String × String) : Prop := a.1 ≤ b.1

instance : DecidableRel fieldLE := fun a b => inferInstanceAs (Decidable (a.1 ≤ b.1))

mutual

/-- `fmt.Sprintf("%v", v)`: the default Go textual rendering of a value
(maps are printed with their keys in sorted order). -/
def Value.render : Value → String
  | .null => "<nil>"
  | .bool true => "true"
  | .bool false => "false"
  | .int n => toString n
  | .str s => s
  | .arr xs => "[" ++ String.intercalate " " (renderElems xs) ++ "]"
  | .obj fs => "map[" ++ String.intercalate " " (((renderFields fs).insertionSort fieldLE).map
      fun p => p.1 ++ ":" ++ p.2) ++ "]"

/-- Renders the elements of a sequence value, in order. -/
def renderElems : List Value → List String
  | [] => []
  | v :: vs => v.render :: renderElems vs

/-- Renders each entry of a mapping value to its key and rendered value. -/
def renderFields : List (String × Value) → List (String × String)
  | [] => []
  | f :: fs => (f.1, f.2.render) :: renderFields fs

end

/-! ### Selector engine (`internal/selector`) -/

/-- One step in a selector path: a named field access or a `[*]` wildcard. -/
inductive Segment where
  | field (name : String)
  | wildcard
deriving DecidableEq

/-- A parsed JSONPath-like selector (`selector.Selector`). -/
structure Selector where
  raw : String
  segments : List Segment
deriving DecidableEq

/-- `Selector.String()`: the original selector text. -/
def Selector.toStr (s : Selector) : String := s.raw

/-- `Selector.IsScalar()`: true iff no `[*]` wildcard occurs in the path. -/
def Selector.IsScalar (s : Selector) : Bool :=
  s.segments.all fun seg => seg ≠ Segment.wildcard

/-- Characters terminating a field name (`strings.IndexAny(rest, ".[")`). -/
def isFieldEnd (c : Char) : Bool := c = '.' || c = '['

/-- The segment-parsing loop of `selector.Parse`, over the remaining
characters after the leading `$`.  The loop consumes at least one character
per iteration, so it is written by structural recursion on a fuel counter
initialised to the character count plus one; the fuel can therefore never
run out. -/
def parseSegments (sel : String) : Nat → List Char → Except String (List Segment)
  | _, [] => .ok []
  | 0, _ :: _ => .error "selector: internal"
  | fuel + 1, '.' :: rest =>
    if rest.isEmpty then .error ("selector: trailing dot: " ++ sel)
    else
      let name := rest.takeWhile fun c => !isFieldEnd c
      if name.isEmpty then .error ("selector: empty field name: " ++ sel)
      else do
        let segs ← parseSegments sel fuel (rest.dropWhile fun c => !isFieldEnd c)
        .ok (Segment.field (String.mk name) :: segs)
  | fuel + 1, '[' :: '*' :: ']' :: rest => do
    let segs ← parseSegments sel fuel rest
    .ok (Segment.wildcard :: segs)
  | _ + 1, c :: _ =>
    .error ("selector: unexpected character " ++ String.mk [c] ++ " in: " ++ sel)

/-- `selector.Parse`: parses a selector string. -/
def Parse (sel : String) : Except String Selector :=
  match sel.data with
  | [] => .error "selector: empty selector"
  | '$' :: rest =>
    (parseSegments sel (rest.length + 1) rest).map fun segs =>
      { raw := sel, segments := segs }
  | _ :: _ => .error ("selector: must start with root marker: " ++ sel)

/-- One step of `selector.resolve`: apply a segment to every candidate,
dropping candidates of the wrong shape. -/
def resolveStep (seg : Segment) (current : List Value) : List Value :=
  match seg with
  | .wildcard => current.flatMap fun v =>
      match v with
      | .arr xs => xs
      | _ => []
  | .field name => current.filterMap fun v =>
      match v with
      | .obj fs => fs.lookup name
      | _ => none

/-- `selector.resolve`: apply the remaining segments to the working set. -/
def resolve (current : List Value) : List Segment → List Value
  | [] => current
  | seg :: rest => resolve (resolveStep seg current) rest

/-- The value projection performed by `Selector.Evaluate` (its error result
is always `nil` in the source; callers discard it with `vals, _ :=`). -/
def Selector.eval (s : Selector) (data : Value) : List Value :=
  resolve [data] s.segments

/-- `Selector.Evaluate`: returns all matched values and a `nil` error. -/
def Selector.Evaluate (s : Selector) (data : Value) : Except String (List Value) :=
  .ok (s.eval data)

/-! ### Configuration records (`internal/config`) -/

/-- `config.ReferenceDef`: the `references` block of a constraint. -/
structure ReferenceDef where
  rtype : String
  key : String
deriving DecidableEq

/-- `config.ConstraintDef`: one constraint definition of a type. -/
structure ConstraintDef where
  id : String
  ctype : String
  key : String
  caseSensitive : Option Bool
  scope : String
  pathSelector : String
  references : Option ReferenceDef
deriving DecidableEq

/-- `ConstraintDef.IsCaseSensitive`: true if `case_sensitive` is unset or
explicitly true. -/
def ConstraintDef.IsCaseSensitive (c : ConstraintDef) : Bool :=
  match c.caseSensitive with
  | none => true
  | some b => b

/-- `config.TypeDef` (the fields consumed by constraint evaluation). -/
structure TypeDef where
  name : String
  constraints : List ConstraintDef
deriving DecidableEq

/-! ### Constraint evaluation (`internal/constraints/constraints.go`) -/

/-- `constraints.Item`: a parsed data item with its metadata. -/
structure Item where
  typeName : String
  filePath : String
  data : Value
  pathCaptures : List (String × String)
  rowIndex : Int

/-- `constraints.Error`: one constraint violation. -/
structure Error where
  constraintID : String
  constraintType : String
  typeName : String
  filePath : String
  message : String
  rowIndex : Int
deriving DecidableEq

/-- `strings.ToLower`: folds each character to lower case. -/
def strToLower (s : String) : String :=
  String.mk (s.data.map Char.toLower)

/-- `normalizeKey`: converts a value to a string key for comparison. -/
def normalizeKey (v : Value) (caseSensitive : Bool) : String :=
  let s := v.render
  if caseSensitive then s else strToLower s

/-- The message of a type-scope duplicate violation
(`fmt.Sprintf("duplicate value %q for key %s", key, cd.Key)`). -/
def dupMsg (key cdKey : String) : String :=
  "duplicate value \x22" ++ key ++ "\x22 for key " ++ cdKey

/-- The message of an item-scope duplicate violation. -/
def dupItemMsg (key cdKey : String) : String :=
  "duplicate value \x22" ++ key ++ "\x22 for key " ++ cdKey ++ " within item"

/-- The `seen` record of `evalUniqueTypeScope`: one occurrence of a key. -/
structure Seen where
  filePath : String
  rowIndex : Int
deriving DecidableEq

/-- Appends an occurrence to the entry of `key` in the association list
modelling the Go map `index` (`index[key] = append(index[key], s)`);
insertion order of keys is preserved. -/
def insertIndex (idx : List (String × List Seen)) (key : String) (s : Seen) :
    List (String × List Seen) :=
  match idx with
  | [] => [(key, [s])]
  | (k, es) :: rest =>
    if k = key then (k, es ++ [s]) :: rest else (k, es) :: insertIndex rest key s

/-- One iteration of the index-building loop of `evalUniqueTypeScope`: an
item whose selector yields no value is skipped, otherwise its normalized
first value is recorded. -/
def indexStep (sel : Selector) (caseSensitive : Bool)
    (idx : List (String × List Seen)) (item : Item) : List (String × List Seen) :=
  match (sel.eval item.data).head? with
  | none => idx
  | some v => insertIndex idx (normalizeKey v caseSensitive)
      { filePath := item.filePath, rowIndex := item.rowIndex }

/-- The index-building loop of `evalUniqueTypeScope`. -/
def buildIndex (sel : Selector) (caseSensitive : Bool) (items : List Item) :
    List (String × List Seen) :=
  items.foldl (indexStep sel caseSensitive) []

/-- An enumeration of the Go map `index` is faithful when it returns a
permutation of the recorded entries (Go map iteration order is arbitrary). -/
def FaithfulEnum (enum : List (String × List Seen) → List (String × List Seen)) : Prop :=
  ∀ idx, List.Perm (enum idx) idx

/-- `evalUniqueTypeScope`: enforces uniqueness of a scalar key across all
items of the type; `enum` models the unordered iteration over the Go map. -/
def evalUniqueTypeScope (enum : List (String × List Seen) → List (String × List Seen))
    (typeName constraintID : String) (cd : ConstraintDef) (sel : Selector)
    (caseSensitive : Bool) (items : List Item) : List Error :=
  (enum (buildIndex sel caseSensitive items)).flatMap fun g =>
    if g.2.length < 2 then []
    else g.2.map fun e =>
      { constraintID := constraintID
        constraintType := "unique"
        typeName := typeName
        filePath := e.filePath
        message := dupMsg g.1 cd.key
        rowIndex := e.rowIndex }

/-- The scan loop of `evalUniqueItemScope` over one item's matched values,
carrying the set of already-seen normalized keys. -/
def scanItem (typeName constraintID : String) (cd : ConstraintDef)
    (caseSensitive : Bool) (item : Item) :
    List Value → List String → List Error
  | [], _ => []
  | v :: vs, seenKeys =>
    let key := normalizeKey v caseSensitive
    (if key ∈ seenKeys then
      [{ constraintID := constraintID
         constraintType := "unique"
         typeName := typeName
         filePath := item.filePath
         message := dupItemMsg key cd.key
         rowIndex := item.rowIndex }]
     else []) ++ scanItem typeName constraintID cd caseSensitive item vs (key :: seenKeys)

/-- `evalUniqueItemScope`: enforces uniqueness within each individual item. -/
def evalUniqueItemScope (typeName constraintID : String) (cd : ConstraintDef)
    (sel : Selector) (caseSensitive : Bool) (items : List Item) : List Error :=
  items.flatMap fun item => scanItem typeName constraintID cd caseSensitive item
    (sel.eval item.data) []

/-- `evalUnique`: checks the `unique` constraint. -/
def evalUnique (enum : List (String × List Seen) → List (String × List Seen))
    (typeName constraintID : String) (cd : ConstraintDef) (items : List Item) :
    List Error :=
  match Parse cd.key with
  | .error e =>
    [{ constraintID := constraintID
       constraintType := "unique"
       typeName := typeName
       filePath := ""
       message := "invalid selector \x22" ++ cd.key ++ "\x22: " ++ e
       rowIndex := -1 }]
  | .ok sel =>
    let caseSensitive := cd.IsCaseSensitive
    if sel.IsScalar && cd.scope == "type" then
      evalUniqueTypeScope enum typeName constraintID cd sel caseSensitive items
    else
      evalUniqueItemScope typeName constraintID cd sel caseSensitive items

/-- One iteration of the reference-index construction of `evalForeignKey`:
a referenced item contributes its normalized key iff its selector yields
exactly one value. -/
def fkStep (refSel : Selector) (idx : List String) (ri : Item) : List String :=
  match refSel.eval ri.data with
  | [v] => normalizeKey v true :: idx
  | _ => idx

/-- The reference index of `evalForeignKey`.  Membership is the only
operation performed on the Go map `refIndex`, so it is modelled as the list
of inserted keys. -/
def fkIndex (refSel : Selector) (refItems : List Item) : List String :=
  refItems.foldl (fkStep refSel) []

/-- `evalForeignKey`: checks the `foreign_key` constraint. -/
def evalForeignKey (typeName constraintID : String) (cd : ConstraintDef)
    (items : List Item) (allItems : String → List Item) : List Error :=
  match cd.references with
  | none =>
    [{ constraintID := constraintID
       constraintType := "foreign_key"
       typeName := typeName
       filePath := ""
       message := "missing references definition"
       rowIndex := -1 }]
  | some ref =>
    match Parse cd.key with
    | .error e =>
      [{ constraintID := constraintID
         constraintType := "foreign_key"
         typeName := typeName
         filePath := ""
         message := "invalid key selector \x22" ++ cd.key ++ "\x22: " ++ e
         rowIndex := -1 }]
    | .ok keySel =>
      match Parse ref.key with
      | .error e =>
        [{ constraintID := constraintID
           constraintType := "foreign_key"
           typeName := typeName
           filePath := ""
           message := "invalid references.key selector \x22" ++ ref.key ++ "\x22: " ++ e
           rowIndex := -1 }]
      | .ok refSel =>
        let refIndex := fkIndex refSel (allItems ref.rtype)
        items.flatMap fun item =>
          match keySel.eval item.data with
          | [] => []
          | [v] =>
            let key := normalizeKey v true
            if key ∈ refIndex then []
            else
              [{ constraintID := constraintID
                 constraintType := "foreign_key"
                 typeName := typeName
                 filePath := item.filePath
                 message := "foreign key \x22" ++ key ++ "\x22 not found in "
                   ++ ref.rtype ++ "." ++ ref.key
                 rowIndex := item.rowIndex }]
          | _ =>
            [{ constraintID := constraintID
               constraintType := "foreign_key"
               typeName := typeName
               filePath := item.filePath
               message := "key selector " ++ cd.key
                 ++ " resolved to multiple values; expected scalar"
               rowIndex := item.rowIndex }]

/-- `resolvePathSelector`: looks the `path_selector` up in the item's path
captures. -/
def resolvePathSelector (pathSelector : String) (captures : List (String × String)) :
    Option String :=
  captures.lookup pathSelector

/-- `evalPathEqualsAttr`: checks the `path_equals_attr` constraint. -/
def evalPathEqualsAttr (typeName constraintID : String) (cd : ConstraintDef)
    (items : List Item) : List Error :=
  match cd.references with
  | none =>
    [{ constraintID := constraintID
       constraintType := "path_equals_attr"
       typeName := typeName
       filePath := ""
       message := "missing references definition"
       rowIndex := -1 }]
  | some ref =>
    match Parse ref.key with
    | .error e =>
      [{ constraintID := constraintID
         constraintType := "path_equals_attr"
         typeName := typeName
         filePath := ""
         message := "invalid references.key selector \x22" ++ ref.key ++ "\x22: " ++ e
         rowIndex := -1 }]
    | .ok attrSel =>
      let caseSensitive := cd.IsCaseSensitive
      items.flatMap fun item =>
        match resolvePathSelector cd.pathSelector item.pathCaptures with
        | none =>
          [{ constraintID := constraintID
             constraintType := "path_equals_attr"
             typeName := typeName
             filePath := item.filePath
             message := "path_selector \x22" ++ cd.pathSelector
               ++ "\x22 not found in path captures"
             rowIndex := item.rowIndex }]
        | some pathVal =>
          match attrSel.eval item.data with
          | [] =>
            [{ constraintID := constraintID
               constraintType := "path_equals_attr"
               typeName := typeName
               filePath := item.filePath
               message := "attribute selector " ++ ref.key ++ " resolved to no values"
               rowIndex := item.rowIndex }]
          | [v] =>
            let attrVal := normalizeKey v caseSensitive
            let pv := if caseSensitive then pathVal else strToLower pathVal
            if pv = attrVal then []
            else
              [{ constraintID := constraintID
                 constraintType := "path_equals_attr"
                 typeName := typeName
                 filePath := item.filePath
                 message := "path value \x22" ++ pathVal
                   ++ "\x22 does not match attribute value \x22" ++ v.render ++ "\x22"
                 rowIndex := item.rowIndex }]
          | _ =>
            [{ constraintID := constraintID
               constraintType := "path_equals_attr"
               typeName := typeName
               filePath := item.filePath
               message := "attribute selector " ++ ref.key
                 ++ " resolved to multiple values; expected scalar"
               rowIndex := item.rowIndex }]

/-- The body of the `switch cd.Type` statement of `Evaluate` (a `switch`
with no default: unknown constraint types contribute nothing). -/
def evalConstraint (enum : List (String × List Seen) → List (String × List Seen))
    (allItems : String → List Item) (tdName : String) (ci : Nat)
    (cd : ConstraintDef) : List Error :=
  let constraintID := if cd.id = "" then "#" ++ toString ci else cd.id
  let typeItems := allItems tdName
  if cd.ctype = "unique" then
    evalUnique enum tdName constraintID cd typeItems
  else if cd.ctype = "foreign_key" then
    evalForeignKey tdName constraintID cd typeItems allItems
  else if cd.ctype = "path_equals_attr" then
    evalPathEqualsAttr tdName constraintID cd typeItems
  else []

/-- The unsorted violation list accumulated by `Evaluate` before its final
sort: caller-provided type order, declared constraint order. -/
def rawErrors (enum : List (String × List Seen) → List (String × List Seen))
    (allItems : String → List Item) (typeDefs : List TypeDef) : List Error :=
  typeDefs.flatMap fun td =>
    td.constraints.enum.flatMap fun ic => evalConstraint enum allItems td.name ic.1 ic.2

/-- Go's byte-wise lexicographic `<` on strings (stated on the underlying
character list, which is propositionally the same as `String.instLT`). -/
def strLT (a b : String) : Prop := a.data < b.data

instance : DecidableRel strLT := fun a b =>
  inferInstanceAs (Decidable (a.data < b.data))

/-- The comparison of the `sort.Slice` call in `Evaluate`, as a non-strict
total preorder: lexicographic on (type name, constraint id, file path,
row index). -/
def errLE (a b : Error) : Prop :=
  if a.typeName = b.typeName then
    if a.constraintID = b.constraintID then
      if a.filePath = b.filePath then a.rowIndex ≤ b.rowIndex
      else strLT a.filePath b.filePath
    else strLT a.constraintID b.constraintID
  else strLT a.typeName b.typeName

instance : DecidableRel errLE := fun a b => by
  unfold errLE
  infer_instance

/-- `constraints.Evaluate`: evaluates all constraints across all items and
returns the violations sorted deterministically. -/
def Evaluate (enum : List (String × List Seen) → List (String × List Seen))
    (allItems : String → List Item) (typeDefs : List TypeDef) : List Error :=
  (rawErrors enum allItems typeDefs).insertionSort errLE

/-! ### Spec-side predicates -/

mutual

/-- `f` does not occur as a field name of any mapping reachable inside the
value (the claim's "final field absent from the data"). -/
def Value.keyFree (f : String) : Value → Bool
  | .null => true
  | .bool _ => true
  | .int _ => true
  | .str _ => true
  | .arr xs => keyFreeElems f xs
  | .obj fs => keyFreeFields f fs

/-- `keyFree` over the elements of a sequence. -/
def keyFreeElems (f : String) : List Value → Bool
  | [] => true
  | v :: vs => v.keyFree f && keyFreeElems f vs

/-- `keyFree` over the entries of a mapping. -/
def keyFreeFields (f : String) : List (String × Value) → Bool
  | [] => true
  | e :: fs => (e.1 != f) && e.2.keyFree f && keyFreeFields f fs

end

/-- The duplicate occurrences of a value list, stated positionally as in the
specification: the normalized key at position `i` is flagged exactly when it
already occurs among the normalized keys of positions before `i` (or in the
ambient `seen` set, empty at the start of an item's scan). -/
def dupKeysSpec (cs : Bool) (seen : List String) (vals : List Value) : List String :=
  (List.range vals.length).filterMap fun i =>
    match vals[i]? with
    | none => none
    | some v =>
      if normalizeKey v cs ∈ seen ∨
          normalizeKey v cs ∈ (vals.take i).map (fun w => normalizeKey w cs)
      then some (normalizeKey v cs) else none

/-- The occurrences of normalized key value `k` across a type's items, in
item order: one entry per item whose scalar selector yields a value
normalizing to `k` (items yielding no value are absent). -/
def occList (sel : Selector) (cs : Bool) (items : List Item) (k : String) : List Seen :=
  items.filterMap fun it =>
    match (sel.eval it.data).head? with
    | none => none
    | some v =>
      if normalizeKey v cs = k
      then some { filePath := it.filePath, rowIndex := it.rowIndex }
      else none

/-- Direct membership scan stated as in the specification: some referenced
item's selector yields exactly one value normalizing (case-sensitively) to
the sought key. -/
def fkRefMatch (refSel : Selector) (refItems : List Item) (k : String) : Bool :=
  refItems.any fun ri =>
    match refSel.eval ri.data with
    | [v] => normalizeKey v true == k
    | _ => false

/-- The foreign-key evaluator restated from the specification's words:
zero key matches are skipped; several matches give one cardinality
violation and no lookup; exactly one match gives one not-found violation
iff no referenced item carries that key. -/
def evalForeignKeySpec (typeName constraintID : String) (cd : ConstraintDef)
    (ref : ReferenceDef) (keySel refSel : Selector) (items : List Item)
    (allItems : String → List Item) : List Error :=
  items.flatMap fun item =>
    match keySel.eval item.data with
    | [] => []
    | [v] =>
      if fkRefMatch refSel (allItems ref.rtype) (normalizeKey v true) then []
      else
        [{ constraintID := constraintID
           constraintType := "foreign_key"
           typeName := typeName
           filePath := item.filePath
           message := "foreign key \x22" ++ normalizeKey v true ++ "\x22 not found in "
             ++ ref.rtype ++ "." ++ ref.key
           rowIndex := item.rowIndex }]
    | _ =>
      [{ constraintID := constraintID
         constraintType := "foreign_key"
         typeName := typeName
         filePath := item.filePath
         message := "key selector " ++ cd.key
           ++ " resolved to multiple values; expected scalar"
         rowIndex := item.rowIndex }]

/-! ### The composite sort key and its order theory -/

/-- The composite sort key of a violation:
(type name, constraint id, file path, row index). -/
def errKey (e : Error) : String × String × String × Int :=
  (e.typeName, e.constraintID, e.filePath, e.rowIndex)

/-- The composite key viewed in the lexicographic order on the product. -/
def errKeyL (e : Error) : String ×ₗ String ×ₗ String ×ₗ Int :=
  toLex (e.typeName, toLex (e.constraintID, toLex (e.filePath, e.rowIndex)))

/-- The contract Go's `sort.Slice` gives for the comparison used in
`Evaluate`: the result is a permutation of the input, ordered by the
composite key.  `sort.Slice` is explicitly not stable, and ties may be
ordered differently on different inputs; any deterministic function
satisfying this contract — in particular the actual pdqsort — is admitted. -/
def SortsByErrLE (sortFn : List Error → List Error) : Prop :=
  ∀ l, List.Perm (sortFn l) l ∧ List.Pairwise errLE (sortFn l)

/-- The top-level evaluation with the sorting pass kept abstract: any
function satisfying the `sort.Slice` contract may stand at the end of the
pipeline.  `Evaluate` is the instance at a stable insertion sort (one
admissible implementation of the contract). -/
def EvaluateWith (sortFn : List Error → List Error)
    (enum : List (String × List Seen) → List (String × List Seen))
    (allItems : String → List Item) (typeDefs : List TypeDef) : List Error :=
  sortFn (rawErrors enum allItems typeDefs)

/-- A corpus whose items all carry pairwise-distinct (file path, row index)
pairs, yet whose item-scope constraint produces two distinct violations
with equal composite keys (the `tags` item repeats both `a` and `b`). -/
def itemsD : List Item :=
  [{ typeName := "t", filePath := "p", data := Value.obj [("id", Value.str "x")],
     pathCaptures := [], rowIndex := -1 },
   { typeName := "t", filePath := "q", data := Value.obj [("id", Value.str "x")],
     pathCaptures := [], rowIndex := -1 },
   { typeName := "t", filePath := "r", data := Value.obj [("id", Value.str "y")],
     pathCaptures := [], rowIndex := -1 },
   { typeName := "t", filePath := "s", data := Value.obj [("id", Value.str "y")],
     pathCaptures := [], rowIndex := -1 },
   { typeName := "t", filePath := "w",
     data := Value.obj [("tags",
       Value.arr [Value.str "a", Value.str "a", Value.str "b", Value.str "b"])],
     pathCaptures := [], rowIndex := -1 }]

/-- The corpus `itemsD` keyed by type name. -/
def allD : String → List Item := fun n => if n = "t" then itemsD else []

/-- One type with a type-scope scalar unique constraint (its index grouping
is permuted by map iteration) and an item-scope wildcard unique constraint
(its two violations tie on the composite key). -/
def tdsD : List TypeDef :=
  [{ name := "t",
     constraints :=
       [{ id := "a-scalar", ctype := "unique", key := "$.id", caseSensitive := none,
          scope := "type", pathSelector := "", references := none },
        { id := "b-tags", ctype := "unique", key := "$.tags[*]", caseSensitive := none,
          scope := "type", pathSelector := "", references := none }] }]

/-- A sorted permutation of the violations of `itemsD`/`tdsD` that orders
the two tied item-scope violations `b` before `a`. -/
def K2D : List Error :=
  [{ constraintID := "a-scalar", constraintType := "unique", typeName := "t",
     filePath := "p", message := dupMsg "x" "$.id", rowIndex := -1 },
   { constraintID := "a-scalar", constraintType := "unique", typeName := "t",
     filePath := "q", message := dupMsg "x" "$.id", rowIndex := -1 },
   { constraintID := "a-scalar", constraintType := "unique", typeName := "t",
     filePath := "r", message := dupMsg "y" "$.id", rowIndex := -1 },
   { constraintID := "a-scalar", constraintType := "unique", typeName := "t",
     filePath := "s", message := dupMsg "y" "$.id", rowIndex := -1 },
   { constraintID := "b-tags", constraintType := "unique", typeName := "t",
     filePath := "w", message := dupItemMsg "b" "$.tags[*]", rowIndex := -1 },
   { constraintID := "b-tags", constraintType := "unique", typeName := "t",
     filePath := "w", message := dupItemMsg "a" "$.tags[*]", rowIndex := -1 }]

/-- A deterministic function satisfying the `sort.Slice` contract that
orders the tied pair of `itemsD`'s violations one way on the raw list
produced under reversed index iteration and the other way (the stable way)
on every other input. -/
def advSortD (l : List Error) : List Error :=
  if l = rawErrors List.reverse allD tdsD then K2D else l.insertionSort errLE

theorem strLT_iff {a b : String} : strLT a b ↔ a < b := by
  unfold strLT
  rw [String.lt_iff_toList_lt]
  exact Iff.rfl

/-- `errLE` is exactly the lexicographic order on the composite key. -/
theorem errLE_iff_key_le {a b : Error} : errLE a b ↔ errKeyL a ≤ errKeyL b := by
  unfold errLE errKeyL
  simp only [Prod.Lex.le_iff, strLT_iff]
  split_ifs <;> simp_all [lt_irrefl]

theorem errLE_trans {a b c : Error} (h1 : errLE a b) (h2 : errLE b c) : errLE a c := by
  rw [errLE_iff_key_le] at h1 h2 ⊢
  exact le_trans h1 h2

theorem errLE_total (a b : Error) : errLE a b ∨ errLE b a := by
  rw [errLE_iff_key_le, errLE_iff_key_le]
  exact le_total _ _

/-- Ties of the non-strict comparison have equal composite keys. -/
theorem errKey_eq_of_errLE {a b : Error} (h1 : errLE a b) (h2 : errLE b a) :
    errKey a = errKey b := by
  rw [errLE_iff_key_le] at h1 h2
  have h := le_antisymm h1 h2
  unfold errKeyL at h
  simp only [toLex_inj, Prod.mk.injEq] at h
  obtain ⟨e1, e2, e3, e4⟩ := h
  unfold errKey
  rw [e1, e2, e3, e4]

theorem errLE_of_errKey_eq {a b : Error} (h : errKey a = errKey b) : errLE a b := by
  unfold errKey at h
  simp only [Prod.mk.injEq] at h
  obtain ⟨e1, e2, e3, e4⟩ := h
  rw [errLE_iff_key_le]
  unfold errKeyL
  rw [Prod.Lex.le_iff]
  right
  refine ⟨e1, ?_⟩
  rw [Prod.Lex.le_iff]
  right
  refine ⟨e2, ?_⟩
  rw [Prod.Lex.le_iff]
  right
  exact ⟨e3, le_of_eq e4⟩

instance : IsTrans Error errLE := ⟨fun _ _ _ => errLE_trans⟩

instance : IsTotal Error errLE := ⟨errLE_total⟩

/-- C1. The violation sequence returned by the top-level `Evaluate` is
sorted ascending by the composite key (owning type name, then constraint id
lexicographic, then file path lexicographic, then row index with smaller
values — in particular the absent marker `-1` — first), for every corpus,
every list of type definitions and every iteration order of the internal
index. -/
theorem evaluate_sorted (enum : List (String × List Seen) → List (String × List Seen))
    (allItems : String → List Item) (typeDefs : List TypeDef) :
    List.Sorted errLE (Evaluate enum allItems typeDefs) :=
  List.sorted_insertionSort errLE _

/-- C2. For a unique constraint whose selector parses: the evaluator applies
type-scope semantics exactly when the selector is scalar and the configured
scope is `"type"`; in every other case — in particular whenever the selector
contains a wildcard, even with scope `"type"` explicitly configured — it
applies item-scope semantics.  A selector is non-scalar exactly when a
wildcard segment occurs in it. -/
theorem evalUnique_dispatch
    (enum : List (String × List Seen) → List (String × List Seen))
    (typeName constraintID : String) (cd : ConstraintDef) (items : List Item)
    (sel : Selector) (hp : Parse cd.key = Except.ok sel) :
    (sel.IsScalar = false ↔ Segment.wildcard ∈ sel.segments) ∧
    (sel.IsScalar = true ∧ cd.scope = "type" →
      evalUnique enum typeName constraintID cd items =
        evalUniqueTypeScope enum typeName constraintID cd sel cd.IsCaseSensitive items) ∧
    (¬(sel.IsScalar = true ∧ cd.scope = "type") →
      evalUnique enum typeName constraintID cd items =
        evalUniqueItemScope typeName constraintID cd sel cd.IsCaseSensitive items) := by
  refine ⟨?_, ?_, ?_⟩
  · unfold Selector.IsScalar
    rw [List.all_eq_false]
    constructor
    · rintro ⟨seg, hmem, hseg⟩
      simp only [decide_eq_true_eq, not_not] at hseg
      rwa [hseg] at hmem
    · intro hmem
      exact ⟨Segment.wildcard, hmem, by simp⟩
  · rintro ⟨h1, h2⟩
    unfold evalUnique
    rw [hp]
    simp [h1, h2]
  · intro h
    unfold evalUnique
    rw [hp]
    have : (sel.IsScalar && cd.scope == "type") = false := by
      rw [Bool.and_eq_false_iff]
      by_cases hs : sel.IsScalar = true
      · right
        simp only [beq_eq_false_iff_ne, ne_eq]
        exact fun hc => h ⟨hs, hc⟩
      · left
        simpa using hs
    simp [this]

/-- A concrete instance of the dispatch rule: the selector of key `$.id`
parses, is scalar, and with scope `"type"` the type-scope evaluator runs. -/
theorem evalUnique_dispatch_witness :
    (Parse "$.id" = Except.ok { raw := "$.id", segments := [Segment.field "id"] }) ∧
    (Selector.IsScalar { raw := "$.id", segments := [Segment.field "id"] } = false ↔
      Segment.wildcard ∈ [Segment.field "id"]) :=
  ⟨rfl, (evalUnique_dispatch id "t" "c"
    { id := "c", ctype := "unique", key := "$.id", caseSensitive := none,
      scope := "type", pathSelector := "", references := none }
    [] { raw := "$.id", segments := [Segment.field "id"] } rfl).1⟩

/-! ### Members of the working set reached by `resolve` stay key-free -/

theorem lookup_mem_values {fs : List (String × Value)} {g : String} {v : Value}
    (h : fs.lookup g = some v) : ∃ k, (k, v) ∈ fs := by
  induction fs with
  | nil => simp at h
  | cons e fs ih =>
    rw [List.lookup_cons] at h
    cases hbe : (g == e.1) with
    | true =>
      rw [hbe] at h
      cases h
      exact ⟨e.1, by simp⟩
    | false =>
      rw [hbe] at h
      obtain ⟨k, hmem⟩ := ih h
      exact ⟨k, List.mem_cons_of_mem _ hmem⟩

theorem keyFree_obj_lookup_self {f : String} {fs : List (String × Value)}
    (h : Value.keyFree f (.obj fs) = true) : fs.lookup f = none := by
  rw [Value.keyFree] at h
  induction fs with
  | nil => rfl
  | cons e fs ih =>
    simp only [keyFreeFields, Bool.and_eq_true] at h
    obtain ⟨⟨hne, _⟩, hrest⟩ := h
    rw [List.lookup_cons]
    have hbe : (f == e.1) = false := by
      rw [bne_iff_ne] at hne
      rw [beq_eq_false_iff_ne]
      exact Ne.symm hne
    rw [hbe]
    exact ih hrest

theorem keyFree_obj_field {f : String} {fs : List (String × Value)} {k : String}
    {v : Value} (h : Value.keyFree f (.obj fs) = true) (hmem : (k, v) ∈ fs) :
    v.keyFree f = true := by
  rw [Value.keyFree] at h
  induction fs with
  | nil => simp at hmem
  | cons e fs ih =>
    rw [keyFreeFields, Bool.and_assoc, Bool.and_eq_true] at h
    obtain ⟨_, h2⟩ := h
    rw [Bool.and_eq_true] at h2
    rcases List.mem_cons.mp hmem with heq | hmem'
    · rw [← heq] at h2
      exact h2.1
    · exact ih h2.2 hmem'

theorem keyFree_arr_elem {f : String} {xs : List Value} {v : Value}
    (h : Value.keyFree f (.arr xs) = true) (hmem : v ∈ xs) : v.keyFree f = true := by
  rw [Value.keyFree] at h
  induction xs with
  | nil => simp at hmem
  | cons x xs ih =>
    rw [keyFreeElems, Bool.and_eq_true] at h
    rcases List.mem_cons.mp hmem with heq | hmem'
    · rw [heq]
      exact h.1
    · exact ih h.2 hmem'

theorem resolveStep_keyFree {f : String} {current : List Value} {seg : Segment}
    (h : ∀ v ∈ current, v.keyFree f = true) :
    ∀ w ∈ resolveStep seg current, w.keyFree f = true := by
  intro w hw
  cases seg with
  | wildcard =>
    rw [resolveStep, List.mem_flatMap] at hw
    obtain ⟨v, hv, hw⟩ := hw
    match v, hw with
    | .arr xs, hw => exact keyFree_arr_elem (h _ hv) hw
  | field g =>
    rw [resolveStep, List.mem_filterMap] at hw
    obtain ⟨v, hv, hw⟩ := hw
    match v, hw with
    | .obj fs, hw =>
      obtain ⟨k, hmem⟩ := lookup_mem_values hw
      exact keyFree_obj_field (h _ hv) hmem

theorem resolve_keyFree {f : String} {segs : List Segment} :
    ∀ {current : List Value}, (∀ v ∈ current, v.keyFree f = true) →
    ∀ w ∈ resolve current segs, w.keyFree f = true := by
  induction segs with
  | nil => intro current h w hw; exact h w hw
  | cons seg rest ih =>
    intro current h w hw
    rw [resolve] at hw
    exact ih (resolveStep_keyFree h) w hw

theorem resolve_append (current : List Value) (l1 l2 : List Segment) :
    resolve current (l1 ++ l2) = resolve (resolve current l1) l2 := by
  induction l1 generalizing current with
  | nil => rfl
  | cons seg rest ih =>
    rw [List.cons_append, resolve, resolve, ih]

theorem resolveStep_field_keyFree {f : String} {current : List Value}
    (h : ∀ v ∈ current, v.keyFree f = true) :
    resolveStep (Segment.field f) current = [] := by
  rw [resolveStep, List.filterMap_eq_nil_iff]
  intro v hv
  match v with
  | .null | .bool _ | .int _ | .str _ | .arr _ => rfl
  | .obj fs => exact keyFree_obj_lookup_self (h _ hv)

/-- C9. For every parsed selector and every root value, `Selector.Evaluate`
returns a (possibly empty) value list and never an error; and whenever the
selector ends in a field access whose name occurs in no mapping of the data,
the result is the empty sequence. -/
theorem selector_evaluate_total_and_missing
    (s : Selector) (d : Value) :
    (∃ vs, s.Evaluate d = Except.ok vs) ∧
    (∀ (init : List Segment) (f : String),
      s.segments = init ++ [Segment.field f] → d.keyFree f = true →
      s.eval d = []) := by
  constructor
  · exact ⟨s.eval d, rfl⟩
  · intro init f hsegs hfree
    unfold Selector.eval
    rw [hsegs, resolve_append]
    have hall : ∀ w ∈ resolve [d] init, w.keyFree f = true := by
      apply resolve_keyFree
      intro v hv
      rcases List.mem_singleton.mp hv with rfl
      exact hfree
    rw [resolve, resolveStep_field_keyFree hall]
    rfl

/-- A concrete instance: `$.missing` on `{"id": 1}` evaluates to `ok []`. -/
theorem selector_evaluate_total_and_missing_witness :
    Selector.eval { raw := "$.missing", segments := [Segment.field "missing"] }
      (Value.obj [("id", Value.int 1)]) = [] :=
  (selector_evaluate_total_and_missing
    { raw := "$.missing", segments := [Segment.field "missing"] }
    (Value.obj [("id", Value.int 1)])).2 [] "missing" rfl (by decide)

/-- C10. Values with equal default renderings normalize to the same
comparison key; consequently the unique evaluator reports the number `1` and
the string `"1"` as duplicates of each other, and the foreign-key evaluator
accepts an owning number `1` against a referenced string `"1"`. -/
theorem normalizeKey_collision :
    (∀ (v1 v2 : Value) (cs : Bool), v1.render = v2.render →
      normalizeKey v1 cs = normalizeKey v2 cs) ∧
    (evalUnique id "n" "u"
      { id := "u", ctype := "unique", key := "$.id", caseSensitive := none,
        scope := "type", pathSelector := "", references := none }
      [{ typeName := "n", filePath := "a", data := Value.obj [("id", Value.int 1)],
         pathCaptures := [], rowIndex := -1 },
       { typeName := "n", filePath := "b", data := Value.obj [("id", Value.str "1")],
         pathCaptures := [], rowIndex := -1 }] =
      [{ constraintID := "u", constraintType := "unique", typeName := "n",
         filePath := "a", message := dupMsg "1" "$.id", rowIndex := -1 },
       { constraintID := "u", constraintType := "unique", typeName := "n",
         filePath := "b", message := dupMsg "1" "$.id", rowIndex := -1 }]) ∧
    (evalForeignKey "n" "fk"
      { id := "fk", ctype := "foreign_key", key := "$.teamId", caseSensitive := none,
        scope := "type", pathSelector := "",
        references := some { rtype := "team", key := "$.id" } }
      [{ typeName := "n", filePath := "a", data := Value.obj [("teamId", Value.int 1)],
         pathCaptures := [], rowIndex := -1 }]
      (fun n => if n = "team"
        then [{ typeName := "team", filePath := "t", data := Value.obj [("id", Value.str "1")],
                pathCaptures := [], rowIndex := -1 }]
        else []) = []) := by
  refine ⟨?_, by decide, by decide⟩
  intro v1 v2 cs h
  unfold normalizeKey
  rw [h]

/-- A concrete instance of the normalization collision: the number `1` and
the string `"1"` share one comparison key. -/
theorem normalizeKey_collision_witness :
    normalizeKey (Value.int 1) true = normalizeKey (Value.str "1") true :=
  normalizeKey_collision.1 (Value.int 1) (Value.str "1") true rfl

/-! ### Item-scope unique semantics -/

/-- The scan over one item's value list equals the positional specification:
a value is flagged exactly when its normalized key occurred at an earlier
position (or in the ambient seen set). -/
theorem scanItem_eq_dupKeysSpec (tn cid : String) (cd : ConstraintDef) (cs : Bool)
    (it : Item) (vals : List Value) (seen : List String) :
    scanItem tn cid cd cs it vals seen =
      (dupKeysSpec cs seen vals).map fun k =>
        { constraintID := cid, constraintType := "unique", typeName := tn,
          filePath := it.filePath, message := dupItemMsg k cd.key,
          rowIndex := it.rowIndex } := by
  induction vals generalizing seen with
  | nil => rfl
  | cons v vs ih =>
    rw [scanItem, ih]
    unfold dupKeysSpec
    simp only [List.length_cons, List.range_succ_eq_map, List.filterMap_cons,
      List.filterMap_map]
    have hcongr : ∀ i : Nat,
        ((fun i : Nat =>
          match (v :: vs)[i]? with
          | none => none
          | some w =>
            if normalizeKey w cs ∈ seen ∨
                normalizeKey w cs ∈ ((v :: vs).take i).map (fun u => normalizeKey u cs)
            then some (normalizeKey w cs) else none) ∘ Nat.succ) i =
        (fun i : Nat =>
          match vs[i]? with
          | none => none
          | some w =>
            if normalizeKey w cs ∈ (normalizeKey v cs :: seen) ∨
                normalizeKey w cs ∈ (vs.take i).map (fun u => normalizeKey u cs)
            then some (normalizeKey w cs) else none) i := by
      intro i
      simp only [Function.comp_apply, List.getElem?_cons_succ, List.take_succ_cons,
        List.map_cons]
      cases vs[i]? with
      | none => rfl
      | some w =>
        refine if_congr ?_ rfl rfl
        simp only [List.mem_cons]
        tauto
    rw [List.filterMap_congr fun i _ => hcongr i]
    simp only [List.getElem?_cons_zero, List.take_zero, List.map_nil,
      List.not_mem_nil, or_false]
    by_cases h : normalizeKey v cs ∈ seen
    · rw [if_pos h, if_pos h]
      rfl
    · rw [if_neg h, if_neg h]
      rfl

/-- C4. Under item-scope unique semantics the evaluator is a per-item map:
for each item, scanning its ordered selector matches, the first occurrence
of each normalized value is never flagged and every later occurrence of an
already-seen normalized value yields exactly one violation carrying that
item's file path and row index; items never interact. -/
theorem evalUniqueItemScope_spec (tn cid : String) (cd : ConstraintDef) (sel : Selector)
    (cs : Bool) (items : List Item) :
    evalUniqueItemScope tn cid cd sel cs items =
      items.flatMap fun it =>
        (dupKeysSpec cs [] (sel.eval it.data)).map fun k =>
          { constraintID := cid, constraintType := "unique", typeName := tn,
            filePath := it.filePath, message := dupItemMsg k cd.key,
            rowIndex := it.rowIndex } := by
  unfold evalUniqueItemScope
  simp only [scanItem_eq_dupKeysSpec]

/-! ### Association-list lookup theory for the type-scope index -/

theorem lookup_mem {β : Type} {l : List (String × β)} {k : String} {b : β}
    (h : l.lookup k = some b) : (k, b) ∈ l := by
  induction l with
  | nil => simp at h
  | cons e l ih =>
    rw [List.lookup_cons] at h
    cases hbe : (k == e.1) with
    | true =>
      rw [hbe] at h
      cases h
      have : k = e.1 := eq_of_beq hbe
      rw [this]
      exact List.mem_cons_self _ _
    | false =>
      rw [hbe] at h
      exact List.mem_cons_of_mem _ (ih h)

theorem lookup_of_mem_nodup {β : Type} {l : List (String × β)} {k : String} {b : β}
    (hnd : (l.map Prod.fst).Nodup) (hmem : (k, b) ∈ l) : l.lookup k = some b := by
  induction l with
  | nil => simp at hmem
  | cons e l ih =>
    rw [List.map_cons, List.nodup_cons] at hnd
    rcases List.mem_cons.mp hmem with heq | hmem'
    · rw [← heq, List.lookup_cons]
      have : (k == k) = true := beq_self_eq_true k
      rw [this]
    · rw [List.lookup_cons]
      have hne : (k == e.1) = false := by
        rw [beq_eq_false_iff_ne]
        intro hk
        exact hnd.1 (hk ▸ List.mem_map_of_mem Prod.fst hmem')
      rw [hne]
      exact ih hnd.2 hmem'

theorem lookup_perm_nodup {β : Type} {l1 l2 : List (String × β)} {k : String}
    (hp : List.Perm l1 l2) (hnd : (l2.map Prod.fst).Nodup) :
    l1.lookup k = l2.lookup k := by
  have hnd1 : (l1.map Prod.fst).Nodup := ((hp.map Prod.fst).nodup_iff).mpr hnd
  cases h2 : l2.lookup k with
  | some b => exact lookup_of_mem_nodup hnd1 (hp.mem_iff.mpr (lookup_mem h2))
  | none =>
    cases h1 : l1.lookup k with
    | none => rfl
    | some b =>
      have := lookup_of_mem_nodup hnd (hp.mem_iff.mp (lookup_mem h1))
      rw [this] at h2
      cases h2

theorem insertIndex_lookup_self (idx : List (String × List Seen)) (k : String) (s : Seen) :
    (insertIndex idx k s).lookup k = some (((idx.lookup k).getD []) ++ [s]) := by
  induction idx with
  | nil =>
    rw [insertIndex, List.lookup_cons]
    have : (k == k) = true := beq_self_eq_true k
    rw [this]
    rfl
  | cons e idx ih =>
    rw [insertIndex]
    by_cases he : e.1 = k
    · rw [if_pos he, List.lookup_cons, List.lookup_cons]
      have : (k == e.1) = true := by rw [beq_iff_eq]; exact he.symm
      rw [this]
      rfl
    · rw [if_neg he, List.lookup_cons, List.lookup_cons]
      have : (k == e.1) = false := by
        rw [beq_eq_false_iff_ne]
        exact fun hk => he hk.symm
      rw [this, ih]

theorem insertIndex_lookup_ne (idx : List (String × List Seen)) (k k2 : String)
    (s : Seen) (h : k2 ≠ k) : (insertIndex idx k s).lookup k2 = idx.lookup k2 := by
  induction idx with
  | nil =>
    rw [insertIndex, List.lookup_cons]
    have : (k2 == k) = false := by rwa [beq_eq_false_iff_ne]
    rw [this]
  | cons e idx ih =>
    rw [insertIndex]
    by_cases he : e.1 = k
    · rw [if_pos he, List.lookup_cons, List.lookup_cons]
      have : (k2 == e.1) = false := by
        rw [beq_eq_false_iff_ne]
        rw [he]
        exact h
      rw [this]
    · rw [if_neg he, List.lookup_cons, List.lookup_cons]
      cases hbe : (k2 == e.1) with
      | true => rfl
      | false => exact ih

theorem insertIndex_keys (idx : List (String × List Seen)) (k : String) (s : Seen) :
    (insertIndex idx k s).map Prod.fst =
      if k ∈ idx.map Prod.fst then idx.map Prod.fst else idx.map Prod.fst ++ [k] := by
  induction idx with
  | nil => rfl
  | cons e idx ih =>
    rw [insertIndex]
    by_cases he : e.1 = k
    · rw [if_pos he, List.map_cons, List.map_cons]
      have : k ∈ e.1 :: idx.map Prod.fst := by rw [he]; exact List.mem_cons_self _ _
      rw [if_pos this]
    · rw [if_neg he, List.map_cons, List.map_cons, ih]
      by_cases hk : k ∈ idx.map Prod.fst
      · rw [if_pos hk, if_pos (List.mem_cons_of_mem _ hk)]
      · rw [if_neg hk, if_neg ?_, List.cons_append]
        intro hc
        rcases List.mem_cons.mp hc with heq | hmem
        · exact he heq.symm
        · exact hk hmem

theorem insertIndex_keys_nodup {idx : List (String × List Seen)} {k : String} {s : Seen}
    (h : (idx.map Prod.fst).Nodup) : ((insertIndex idx k s).map Prod.fst).Nodup := by
  rw [insertIndex_keys]
  by_cases hk : k ∈ idx.map Prod.fst
  · rwa [if_pos hk]
  · rw [if_neg hk, List.nodup_append]
    exact ⟨h, List.nodup_singleton k, by simpa using hk⟩

theorem foldIndex_lookup (sel : Selector) (cs : Bool) (k : String) (items : List Item) :
    ∀ idx : List (String × List Seen),
    (items.foldl (indexStep sel cs) idx).lookup k =
      match idx.lookup k with
      | none => if occList sel cs items k = [] then none else some (occList sel cs items k)
      | some es => some (es ++ occList sel cs items k) := by
  induction items with
  | nil =>
    intro idx
    rw [List.foldl_nil]
    have hocc : occList sel cs [] k = [] := rfl
    rw [hocc]
    cases idx.lookup k with
    | none => simp
    | some es => simp
  | cons it its ih =>
    intro idx
    rw [List.foldl_cons]
    cases hv : (sel.eval it.data).head? with
    | none =>
      have hstep : indexStep sel cs idx it = idx := by
        unfold indexStep
        rw [hv]
      have hocc : occList sel cs (it :: its) k = occList sel cs its k := by
        unfold occList
        rw [List.filterMap_cons]
        simp only [hv]
      rw [hstep, hocc]
      exact ih idx
    | some v =>
      have hstep : indexStep sel cs idx it =
          insertIndex idx (normalizeKey v cs)
            { filePath := it.filePath, rowIndex := it.rowIndex } := by
        unfold indexStep
        rw [hv]
      rw [hstep]
      by_cases hk : normalizeKey v cs = k
      · have hocc : occList sel cs (it :: its) k =
            { filePath := it.filePath, rowIndex := it.rowIndex } :: occList sel cs its k := by
          unfold occList
          rw [List.filterMap_cons]
          simp only [hv]
          rw [if_pos hk]
        rw [hocc, hk, ih]
        rw [insertIndex_lookup_self]
        cases idx.lookup k with
        | none => simp
        | some es => simp [List.append_assoc]
      · have hocc : occList sel cs (it :: its) k = occList sel cs its k := by
          unfold occList
          rw [List.filterMap_cons]
          simp only [hv]
          rw [if_neg hk]
        rw [hocc, ih]
        rw [insertIndex_lookup_ne _ _ _ _ fun h => hk h.symm]

theorem buildIndex_lookup (sel : Selector) (cs : Bool) (items : List Item) (k : String) :
    (buildIndex sel cs items).lookup k =
      if occList sel cs items k = [] then none else some (occList sel cs items k) := by
  unfold buildIndex
  rw [foldIndex_lookup]
  rfl

theorem foldIndex_keys_nodup (sel : Selector) (cs : Bool) (items : List Item) :
    ∀ idx : List (String × List Seen), ((idx.map Prod.fst).Nodup) →
    (((items.foldl (indexStep sel cs) idx).map Prod.fst)).Nodup := by
  induction items with
  | nil => intro idx h; exact h
  | cons it its ih =>
    intro idx h
    rw [List.foldl_cons]
    apply ih
    unfold indexStep
    cases (sel.eval it.data).head? with
    | none => exact h
    | some v => exact insertIndex_keys_nodup h

theorem buildIndex_keys_nodup (sel : Selector) (cs : Bool) (items : List Item) :
    ((buildIndex sel cs items).map Prod.fst).Nodup :=
  foldIndex_keys_nodup sel cs items [] List.nodup_nil

theorem foldIndex_filter (sel : Selector) (cs : Bool) (items : List Item) :
    ∀ idx : List (String × List Seen),
    items.foldl (indexStep sel cs) idx =
      (items.filter fun it => !(sel.eval it.data).isEmpty).foldl (indexStep sel cs) idx := by
  induction items with
  | nil => intro idx; rfl
  | cons it its ih =>
    intro idx
    rw [List.foldl_cons, List.filter_cons]
    cases hv : (sel.eval it.data).head? with
    | none =>
      have hemp : (sel.eval it.data).isEmpty = true := by
        rw [List.isEmpty_iff, ← List.head?_eq_none_iff]
        exact hv
      have hstep : indexStep sel cs idx it = idx := by
        unfold indexStep
        rw [hv]
      rw [hstep, hemp]
      rw [if_neg (by simp)]
      exact ih idx
    | some v =>
      have hemp : (sel.eval it.data).isEmpty = false := by
        rw [Bool.eq_false_iff, ne_eq, List.isEmpty_iff]
        intro hnil
        rw [hnil] at hv
        cases hv
      rw [hemp]
      rw [if_pos (by simp)]
      rw [List.foldl_cons]
      exact ih (indexStep sel cs idx it)

theorem buildIndex_filter (sel : Selector) (cs : Bool) (items : List Item) :
    buildIndex sel cs items =
      buildIndex sel cs (items.filter fun it => !(sel.eval it.data).isEmpty) :=
  foldIndex_filter sel cs items []

/-- The duplicate-violation message determines the displayed key. -/
theorem dupMsg_inj {k1 k2 c : String} (h : dupMsg k1 c = dupMsg k2 c) : k1 = k2 := by
  unfold dupMsg at h
  have h' := congrArg String.data h
  simp only [String.data_append, List.append_assoc] at h'
  have h2 := List.append_cancel_left h'
  have h3 := List.append_cancel_right h2
  exact congrArg String.mk h3

/-- A `flatMap` over an association list with distinct keys, of a function
vanishing away from key `k`, collapses to the group of `k`. -/
theorem flatMap_single_key {β : Type} {gs : List (String × List Seen)}
    (hnd : (gs.map Prod.fst).Nodup) (k : String) (F : String × List Seen → List β)
    (hF : ∀ g ∈ gs, g.1 ≠ k → F g = []) :
    gs.flatMap F = Option.elim (gs.lookup k) [] (fun es => F (k, es)) := by
  induction gs with
  | nil => rfl
  | cons g gs ih =>
    rw [List.flatMap_cons, List.lookup_cons]
    rw [List.map_cons, List.nodup_cons] at hnd
    by_cases hg : g.1 = k
    · have hbe : (k == g.1) = true := by
        rw [beq_iff_eq]
        exact hg.symm
      rw [hbe]
      have htail : gs.flatMap F = [] := by
        rw [List.flatMap_eq_nil_iff]
        intro x hx
        apply hF x (List.mem_cons_of_mem _ hx)
        intro hxk
        apply hnd.1
        rw [← hg] at hxk
        exact hxk ▸ List.mem_map_of_mem Prod.fst hx
      rw [htail, List.append_nil]
      show F g = F (k, g.2)
      have hge : g = (k, g.2) := by
        rw [← hg]
      exact congrArg F hge
    · have hbe : (k == g.1) = false := by
        rw [beq_eq_false_iff_ne]
        exact fun h => hg h.symm
      rw [hbe, hF g (List.mem_cons_self _ _) hg, List.nil_append]
      exact ih hnd.2 fun x hx => hF x (List.mem_cons_of_mem _ hx)

/-- C3. Under type-scope unique semantics: items whose selector yields no
value produce no violation and do not enter the index (the evaluation equals
the evaluation of the corpus with them removed); and for every normalized
key value, if it occurs in `N ≥ 2` items then exactly those `N` occurrences
are reported — one violation per occurrence, in item order, carrying the
occurrence's file path and row index — and if it occurs in fewer than two
items, none are. -/
theorem evalUniqueTypeScope_spec
    (enum : List (String × List Seen) → List (String × List Seen))
    (henum : FaithfulEnum enum) (tn cid : String) (cd : ConstraintDef)
    (sel : Selector) (cs : Bool) (items : List Item) :
    (evalUniqueTypeScope enum tn cid cd sel cs items =
      evalUniqueTypeScope enum tn cid cd sel cs
        (items.filter fun it => !(sel.eval it.data).isEmpty)) ∧
    (∀ k : String,
      (evalUniqueTypeScope enum tn cid cd sel cs items).filter
          (fun e => e.message = dupMsg k cd.key) =
        if 2 ≤ (occList sel cs items k).length then
          (occList sel cs items k).map fun s =>
            { constraintID := cid, constraintType := "unique", typeName := tn,
              filePath := s.filePath, message := dupMsg k cd.key,
              rowIndex := s.rowIndex }
        else []) := by
  constructor
  · unfold evalUniqueTypeScope
    rw [← buildIndex_filter]
  · intro k
    unfold evalUniqueTypeScope
    rw [List.filter_flatMap]
    have hperm := henum (buildIndex sel cs items)
    have hndB := buildIndex_keys_nodup sel cs items
    have hnd : ((enum (buildIndex sel cs items)).map Prod.fst).Nodup :=
      ((hperm.map Prod.fst).nodup_iff).mpr hndB
    have hFside : ∀ g ∈ enum (buildIndex sel cs items), g.1 ≠ k →
        List.filter (fun e => decide (e.message = dupMsg k cd.key))
          (if g.2.length < 2 then ([] : List Error)
           else g.2.map fun e =>
             { constraintID := cid, constraintType := "unique", typeName := tn,
               filePath := e.filePath, message := dupMsg g.1 cd.key,
               rowIndex := e.rowIndex }) = [] := by
      intro g hg hgk
      by_cases hlen : g.2.length < 2
      · rw [if_pos hlen]
        rfl
      · rw [if_neg hlen]
        rw [List.filter_eq_nil_iff]
        intro e he
        rw [List.mem_map] at he
        obtain ⟨s, _, rfl⟩ := he
        simp only [decide_eq_true_eq]
        exact fun hmsg => hgk (dupMsg_inj hmsg)
    rw [flatMap_single_key hnd k _ hFside]
    have hlook : (enum (buildIndex sel cs items)).lookup k =
        (buildIndex sel cs items).lookup k := lookup_perm_nodup hperm hndB
    rw [hlook, buildIndex_lookup]
    by_cases hocc : occList sel cs items k = []
    · rw [if_pos hocc, hocc]
      rw [if_neg (by simp)]
      rfl
    · rw [if_neg hocc]
      show List.filter (fun e => decide (e.message = dupMsg k cd.key))
          (if (occList sel cs items k).length < 2 then ([] : List Error)
           else (occList sel cs items k).map fun e =>
             { constraintID := cid, constraintType := "unique", typeName := tn,
               filePath := e.filePath, message := dupMsg k cd.key,
               rowIndex := e.rowIndex }) =
        if 2 ≤ (occList sel cs items k).length then
          (occList sel cs items k).map fun s =>
            { constraintID := cid, constraintType := "unique", typeName := tn,
              filePath := s.filePath, message := dupMsg k cd.key,
              rowIndex := s.rowIndex }
        else []
      by_cases hlen : (occList sel cs items k).length < 2
      · rw [if_pos hlen, if_neg (by omega)]
        rfl
      · rw [if_neg hlen, if_pos (by omega)]
        rw [List.filter_eq_self]
        intro e he
        rw [List.mem_map] at he
        obtain ⟨s, _, rfl⟩ := he
        simp

/-- A concrete instance of the type-scope characterization: two items with
the same id in two files yield exactly those two violations. -/
theorem evalUniqueTypeScope_spec_witness :
    FaithfulEnum id ∧
    (evalUniqueTypeScope id "team" "u"
      { id := "u", ctype := "unique", key := "$.id", caseSensitive := none,
        scope := "type", pathSelector := "", references := none }
      { raw := "$.id", segments := [Segment.field "id"] } true
      [{ typeName := "team", filePath := "a.yaml", data := Value.obj [("id", Value.str "alpha")],
         pathCaptures := [], rowIndex := -1 },
       { typeName := "team", filePath := "b.yaml", data := Value.obj [("id", Value.str "alpha")],
         pathCaptures := [], rowIndex := -1 }]).filter
      (fun e => e.message = dupMsg "alpha" "$.id") =
      [{ constraintID := "u", constraintType := "unique", typeName := "team",
         filePath := "a.yaml", message := dupMsg "alpha" "$.id", rowIndex := -1 },
       { constraintID := "u", constraintType := "unique", typeName := "team",
         filePath := "b.yaml", message := dupMsg "alpha" "$.id", rowIndex := -1 }] := by
  constructor
  · exact fun idx => List.Perm.refl idx
  · rw [(evalUniqueTypeScope_spec id (fun idx => List.Perm.refl idx) "team" "u"
      { id := "u", ctype := "unique", key := "$.id", caseSensitive := none,
        scope := "type", pathSelector := "", references := none }
      { raw := "$.id", segments := [Segment.field "id"] } true
      [{ typeName := "team", filePath := "a.yaml", data := Value.obj [("id", Value.str "alpha")],
         pathCaptures := [], rowIndex := -1 },
       { typeName := "team", filePath := "b.yaml", data := Value.obj [("id", Value.str "alpha")],
         pathCaptures := [], rowIndex := -1 }]).2 "alpha"]
    decide

/-! ### Foreign-key semantics -/

theorem fkIndex_mem (refSel : Selector) (ris : List Item) (k : String) :
    k ∈ fkIndex refSel ris ↔
      ∃ ri ∈ ris, ∃ v, refSel.eval ri.data = [v] ∧ normalizeKey v true = k := by
  have main : ∀ (l : List Item) (acc : List String),
      k ∈ l.foldl (fkStep refSel) acc ↔
        k ∈ acc ∨ ∃ ri ∈ l, ∃ v, refSel.eval ri.data = [v] ∧ normalizeKey v true = k := by
    intro l
    induction l with
    | nil => intro acc; simp
    | cons ri ris ih =>
      intro acc
      rw [List.foldl_cons]
      cases hv : refSel.eval ri.data with
      | nil =>
        have hstep : fkStep refSel acc ri = acc := by
          unfold fkStep
          rw [hv]
        rw [hstep, ih]
        constructor
        · rintro (h | ⟨ri', hri', hrest⟩)
          · exact Or.inl h
          · exact Or.inr ⟨ri', List.mem_cons_of_mem _ hri', hrest⟩
        · rintro (h | ⟨ri', hri', v, hv', hk⟩)
          · exact Or.inl h
          · rcases List.mem_cons.mp hri' with rfl | hmem
            · rw [hv] at hv'
              cases hv'
            · exact Or.inr ⟨ri', hmem, v, hv', hk⟩
      | cons v rest =>
        cases rest with
        | nil =>
          have hstep : fkStep refSel acc ri = normalizeKey v true :: acc := by
            unfold fkStep
            rw [hv]
          rw [hstep, ih]
          constructor
          · rintro (h | ⟨ri', hri', hrest⟩)
            · rcases List.mem_cons.mp h with rfl | hacc
              · exact Or.inr ⟨ri, List.mem_cons_self _ _, v, hv, rfl⟩
              · exact Or.inl hacc
            · exact Or.inr ⟨ri', List.mem_cons_of_mem _ hri', hrest⟩
          · rintro (h | ⟨ri', hri', w, hv', hk⟩)
            · exact Or.inl (List.mem_cons_of_mem _ h)
            · rcases List.mem_cons.mp hri' with rfl | hmem
              · rw [hv] at hv'
                have hvw : v = w := by
                  injection hv'
                rw [← hk, ← hvw]
                exact Or.inl (List.mem_cons_self _ _)
              · exact Or.inr ⟨ri', hmem, w, hv', hk⟩
        | cons w rest2 =>
          have hstep : fkStep refSel acc ri = acc := by
            unfold fkStep
            rw [hv]
          rw [hstep, ih]
          constructor
          · rintro (h | ⟨ri', hri', hrest⟩)
            · exact Or.inl h
            · exact Or.inr ⟨ri', List.mem_cons_of_mem _ hri', hrest⟩
          · rintro (h | ⟨ri', hri', u, hv', hk⟩)
            · exact Or.inl h
            · rcases List.mem_cons.mp hri' with rfl | hmem
              · rw [hv] at hv'
                cases hv'
              · exact Or.inr ⟨ri', hmem, u, hv', hk⟩
  unfold fkIndex
  rw [main ris []]
  simp

theorem fkRefMatch_iff (refSel : Selector) (ris : List Item) (k : String) :
    fkRefMatch refSel ris k = true ↔
      ∃ ri ∈ ris, ∃ v, refSel.eval ri.data = [v] ∧ normalizeKey v true = k := by
  unfold fkRefMatch
  rw [List.any_eq_true]
  constructor
  · rintro ⟨ri, hri, hmatch⟩
    cases hv : refSel.eval ri.data with
    | nil =>
      rw [hv] at hmatch
      simp at hmatch
    | cons v rest =>
      cases rest with
      | nil =>
        rw [hv] at hmatch
        have hbeq : (normalizeKey v true == k) = true := hmatch
        exact ⟨ri, hri, v, hv, eq_of_beq hbeq⟩
      | cons w rest2 =>
        rw [hv] at hmatch
        simp at hmatch
  · rintro ⟨ri, hri, v, hv, hk⟩
    refine ⟨ri, hri, ?_⟩
    rw [hv]
    show (normalizeKey v true == k) = true
    rw [beq_iff_eq]
    exact hk

/-- C5. For a foreign-key constraint with a references block and well-formed
selectors: the membership index holds exactly the case-sensitively
normalized keys of referenced items whose selector yields exactly one
value; and per owning item, zero key matches are skipped, several matches
give exactly one cardinality violation without any lookup, and exactly one
match gives exactly one not-found violation iff no referenced item carries
its normalized key. -/
theorem evalForeignKey_spec (tn cid : String) (cd : ConstraintDef) (ref : ReferenceDef)
    (keySel refSel : Selector) (items : List Item) (allItems : String → List Item)
    (href : cd.references = some ref) (hkey : Parse cd.key = Except.ok keySel)
    (hrefk : Parse ref.key = Except.ok refSel) :
    (∀ k, k ∈ fkIndex refSel (allItems ref.rtype) ↔
      ∃ ri ∈ allItems ref.rtype, ∃ v, refSel.eval ri.data = [v] ∧
        normalizeKey v true = k) ∧
    evalForeignKey tn cid cd items allItems =
      evalForeignKeySpec tn cid cd ref keySel refSel items allItems := by
  constructor
  · intro k
    exact fkIndex_mem refSel (allItems ref.rtype) k
  · unfold evalForeignKey evalForeignKeySpec
    simp only [href, hkey, hrefk]
    refine congrArg (List.flatMap items) (funext fun item => ?_)
    cases hv : keySel.eval item.data with
    | nil => simp only [hv]
    | cons v rest =>
      cases rest with
      | nil =>
        simp only [hv]
        refine if_congr ?_ rfl rfl
        rw [fkIndex_mem, fkRefMatch_iff]
      | cons w rest2 => simp only [hv]

/-- A concrete instance of the foreign-key characterization: a `"ghost"`
reference against a `team` corpus with id `"alpha"`. -/
theorem evalForeignKey_spec_witness :
    evalForeignKey "m" "fk"
      { id := "fk", ctype := "foreign_key", key := "$.teamId", caseSensitive := none,
        scope := "type", pathSelector := "",
        references := some { rtype := "team", key := "$.id" } }
      [{ typeName := "m", filePath := "m.json", data := Value.obj [("teamId", Value.str "ghost")],
         pathCaptures := [], rowIndex := -1 }]
      (fun n => if n = "team"
        then [{ typeName := "team", filePath := "t.json", data := Value.obj [("id", Value.str "alpha")],
                pathCaptures := [], rowIndex := -1 }]
        else []) =
    evalForeignKeySpec "m" "fk"
      { id := "fk", ctype := "foreign_key", key := "$.teamId", caseSensitive := none,
        scope := "type", pathSelector := "",
        references := some { rtype := "team", key := "$.id" } }
      { rtype := "team", key := "$.id" }
      { raw := "$.teamId", segments := [Segment.field "teamId"] }
      { raw := "$.id", segments := [Segment.field "id"] }
      [{ typeName := "m", filePath := "m.json", data := Value.obj [("teamId", Value.str "ghost")],
         pathCaptures := [], rowIndex := -1 }]
      (fun n => if n = "team"
        then [{ typeName := "team", filePath := "t.json", data := Value.obj [("id", Value.str "alpha")],
                pathCaptures := [], rowIndex := -1 }]
        else []) :=
  (evalForeignKey_spec "m" "fk"
    { id := "fk", ctype := "foreign_key", key := "$.teamId", caseSensitive := none,
      scope := "type", pathSelector := "",
      references := some { rtype := "team", key := "$.id" } }
    { rtype := "team", key := "$.id" }
    { raw := "$.teamId", segments := [Segment.field "teamId"] }
    { raw := "$.id", segments := [Segment.field "id"] }
    [{ typeName := "m", filePath := "m.json", data := Value.obj [("teamId", Value.str "ghost")],
       pathCaptures := [], rowIndex := -1 }]
    (fun n => if n = "team"
      then [{ typeName := "team", filePath := "t.json", data := Value.obj [("id", Value.str "alpha")],
              pathCaptures := [], rowIndex := -1 }]
      else []) rfl rfl rfl).2

/-! ### Case folding and violation messages -/

/-- C6 as stated fails on the code: with `caseSensitive = false` and
conflicting values `Alpha` / `ALPHA`, both duplicate messages display the
folded form `alpha`; neither message is the one that would display the
original textual form of either conflicting value. -/
theorem case_fold_message_counterexample :
    (evalUnique id "user" "un"
      { id := "un", ctype := "unique", key := "$.name", caseSensitive := some false,
        scope := "type", pathSelector := "", references := none }
      [{ typeName := "user", filePath := "a.json", data := Value.obj [("name", Value.str "Alpha")],
         pathCaptures := [], rowIndex := -1 },
       { typeName := "user", filePath := "b.json", data := Value.obj [("name", Value.str "ALPHA")],
         pathCaptures := [], rowIndex := -1 }]).map (fun e => e.message) =
      [dupMsg "alpha" "$.name", dupMsg "alpha" "$.name"] ∧
    dupMsg "alpha" "$.name" ≠ dupMsg "Alpha" "$.name" ∧
    dupMsg "alpha" "$.name" ≠ dupMsg "ALPHA" "$.name" := by
  decide

/-- C6 amended: with `caseSensitive = false` values are folded to lower
case before comparison and the folded form is also what every duplicate
violation message displays (the original pre-fold textual form is not
retained), in both type scope and item scope. -/
theorem case_fold_message_amended
    (enum : List (String × List Seen) → List (String × List Seen))
    (henum : FaithfulEnum enum) (tn cid : String) (cd : ConstraintDef)
    (sel : Selector) (items : List Item) :
    (∀ e ∈ evalUniqueTypeScope enum tn cid cd sel false items,
      ∃ it ∈ items, ∃ v, (sel.eval it.data).head? = some v ∧
        e.message = dupMsg (strToLower v.render) cd.key) ∧
    (∀ e ∈ evalUniqueItemScope tn cid cd sel false items,
      ∃ it ∈ items, ∃ v, v ∈ sel.eval it.data ∧
        e.message = dupItemMsg (strToLower v.render) cd.key) := by
  constructor
  · intro e he
    unfold evalUniqueTypeScope at he
    rw [List.mem_flatMap] at he
    obtain ⟨g, hg, he⟩ := he
    by_cases hlen : g.2.length < 2
    · rw [if_pos hlen] at he
      simp at he
    · rw [if_neg hlen] at he
      rw [List.mem_map] at he
      obtain ⟨s, _, rfl⟩ := he
      have hgB : g ∈ buildIndex sel false items := (henum _).mem_iff.mp hg
      have hlook : (buildIndex sel false items).lookup g.1 = some g.2 :=
        lookup_of_mem_nodup (buildIndex_keys_nodup sel false items) hgB
      rw [buildIndex_lookup] at hlook
      by_cases hocc : occList sel false items g.1 = []
      · rw [if_pos hocc] at hlook
        cases hlook
      · obtain ⟨s', hs'⟩ := List.exists_mem_of_ne_nil _ hocc
        unfold occList at hs'
        rw [List.mem_filterMap] at hs'
        obtain ⟨it, hit, hf⟩ := hs'
        cases hv : (sel.eval it.data).head? with
        | none =>
          simp only [hv] at hf
          cases hf
        | some v =>
          simp only [hv] at hf
          by_cases hk : normalizeKey v false = g.1
          · refine ⟨it, hit, v, hv, ?_⟩
            rw [← hk]
            rfl
          · rw [if_neg hk] at hf
            cases hf
  · intro e he
    unfold evalUniqueItemScope at he
    rw [List.mem_flatMap] at he
    obtain ⟨it, hit, he⟩ := he
    rw [scanItem_eq_dupKeysSpec] at he
    rw [List.mem_map] at he
    obtain ⟨k, hk, rfl⟩ := he
    unfold dupKeysSpec at hk
    rw [List.mem_filterMap] at hk
    obtain ⟨i, _, hf⟩ := hk
    cases hv : (sel.eval it.data)[i]? with
    | none =>
      simp only [hv] at hf
      cases hf
    | some v =>
      simp only [hv] at hf
      by_cases hcond : normalizeKey v false ∈ ([] : List String) ∨
          normalizeKey v false ∈ ((sel.eval it.data).take i).map fun w => normalizeKey w false
      · rw [if_pos hcond] at hf
        have hkv : k = normalizeKey v false := by
          injection hf with hf'
          exact hf'.symm
        refine ⟨it, hit, v, ?_, ?_⟩
        · exact List.getElem?_mem hv
        · rw [hkv]
          rfl
      · rw [if_neg hcond] at hf
        cases hf

/-- A concrete instance of the amended statement: the first violation of the
`Alpha`/`ALPHA` corpus displays the folded form of item `a.json`'s value. -/
theorem case_fold_message_amended_witness :
    ∃ it ∈ [({ typeName := "user", filePath := "a.json",
               data := Value.obj [("name", Value.str "Alpha")],
               pathCaptures := [], rowIndex := -1 } : Item),
             { typeName := "user", filePath := "b.json",
               data := Value.obj [("name", Value.str "ALPHA")],
               pathCaptures := [], rowIndex := -1 }], ∃ v,
      (Selector.eval { raw := "$.name", segments := [Segment.field "name"] } it.data).head? =
        some v ∧
      ({ constraintID := "un", constraintType := "unique", typeName := "user",
         filePath := "a.json", message := dupMsg "alpha" "$.name",
         rowIndex := -1 } : Error).message = dupMsg (strToLower v.render) "$.name" :=
  (case_fold_message_amended id (fun idx => List.Perm.refl idx) "user" "un"
    { id := "un", ctype := "unique", key := "$.name", caseSensitive := some false,
      scope := "type", pathSelector := "", references := none }
    { raw := "$.name", segments := [Segment.field "name"] }
    [{ typeName := "user", filePath := "a.json", data := Value.obj [("name", Value.str "Alpha")],
       pathCaptures := [], rowIndex := -1 },
     { typeName := "user", filePath := "b.json", data := Value.obj [("name", Value.str "ALPHA")],
       pathCaptures := [], rowIndex := -1 }]).1
    { constraintID := "un", constraintType := "unique", typeName := "user",
      filePath := "a.json", message := dupMsg "alpha" "$.name", rowIndex := -1 }
    (by decide)

/-! ### Malformed-selector isolation -/

/-- C8. A constraint whose selector text fails to parse produces exactly
one violation with empty file path and row index `-1`, independently of
the item corpus (so no per-item evaluation can be observed), at every
parse site: a `unique` key, a `foreign_key` key, a `foreign_key`
references key, and a `path_equals_attr` references key.  And the
top-level result is always a permutation of the concatenation of every
constraint's violations of every type — no parse failure aborts any other
constraint. -/
theorem parse_failure_isolation
    (enum : List (String × List Seen) → List (String × List Seen))
    (allItems : String → List Item) (typeDefs : List TypeDef)
    (tn cid : String) (cd : ConstraintDef) (items : List Item) (msg : String) :
    (Parse cd.key = Except.error msg →
      evalUnique enum tn cid cd items =
        [{ constraintID := cid, constraintType := "unique", typeName := tn, filePath := "",
           message := "invalid selector \x22" ++ cd.key ++ "\x22: " ++ msg,
           rowIndex := -1 }]) ∧
    (∀ ref, cd.references = some ref → Parse cd.key = Except.error msg →
      evalForeignKey tn cid cd items allItems =
        [{ constraintID := cid, constraintType := "foreign_key", typeName := tn,
           filePath := "",
           message := "invalid key selector \x22" ++ cd.key ++ "\x22: " ++ msg,
           rowIndex := -1 }]) ∧
    (∀ ref keySel, cd.references = some ref → Parse cd.key = Except.ok keySel →
      Parse ref.key = Except.error msg →
      evalForeignKey tn cid cd items allItems =
        [{ constraintID := cid, constraintType := "foreign_key", typeName := tn,
           filePath := "",
           message := "invalid references.key selector \x22" ++ ref.key ++ "\x22: " ++ msg,
           rowIndex := -1 }]) ∧
    (∀ ref, cd.references = some ref → Parse ref.key = Except.error msg →
      evalPathEqualsAttr tn cid cd items =
        [{ constraintID := cid, constraintType := "path_equals_attr", typeName := tn,
           filePath := "",
           message := "invalid references.key selector \x22" ++ ref.key ++ "\x22: " ++ msg,
           rowIndex := -1 }]) ∧
    List.Perm (Evaluate enum allItems typeDefs)
      (typeDefs.flatMap fun td =>
        td.constraints.enum.flatMap fun ic =>
          evalConstraint enum allItems td.name ic.1 ic.2) := by
  refine ⟨?_, ?_, ?_, ?_, ?_⟩
  · intro h
    unfold evalUnique
    rw [h]
  · intro ref href h
    unfold evalForeignKey
    simp only [href, h]
  · intro ref keySel href hkey hrefk
    unfold evalForeignKey
    simp only [href, hkey, hrefk]
  · intro ref href hrefk
    unfold evalPathEqualsAttr
    simp only [href, hrefk]
  · unfold Evaluate rawErrors
    exact List.perm_insertionSort errLE _

/-- Concrete instances of parse-failure isolation, one per parse site: the
trailing-dot selector `$.` yields the single constraint-scoped violation
whatever the corpus holds — as a unique key, a foreign-key key, a
foreign-key references key, and a path-equals-attr references key. -/
theorem parse_failure_isolation_witness :
    (evalUnique id "t" "c"
      { id := "c", ctype := "unique", key := "$.", caseSensitive := none,
        scope := "type", pathSelector := "", references := none }
      [{ typeName := "t", filePath := "x.json", data := Value.obj [("id", Value.str "1")],
         pathCaptures := [], rowIndex := -1 }] =
      [{ constraintID := "c", constraintType := "unique", typeName := "t", filePath := "",
         message := "invalid selector \x22$.\x22: " ++ "selector: trailing dot: $.",
         rowIndex := -1 }]) ∧
    (evalForeignKey "t" "c"
      { id := "c", ctype := "foreign_key", key := "$.", caseSensitive := none,
        scope := "type", pathSelector := "",
        references := some { rtype := "r", key := "$.id" } }
      [{ typeName := "t", filePath := "x.json", data := Value.obj [("id", Value.str "1")],
         pathCaptures := [], rowIndex := -1 }] (fun _ => []) =
      [{ constraintID := "c", constraintType := "foreign_key", typeName := "t",
         filePath := "",
         message := "invalid key selector \x22$.\x22: " ++ "selector: trailing dot: $.",
         rowIndex := -1 }]) ∧
    (evalForeignKey "t" "c"
      { id := "c", ctype := "foreign_key", key := "$.id", caseSensitive := none,
        scope := "type", pathSelector := "",
        references := some { rtype := "r", key := "$." } }
      [{ typeName := "t", filePath := "x.json", data := Value.obj [("id", Value.str "1")],
         pathCaptures := [], rowIndex := -1 }] (fun _ => []) =
      [{ constraintID := "c", constraintType := "foreign_key", typeName := "t",
         filePath := "",
         message := "invalid references.key selector \x22$.\x22: "
           ++ "selector: trailing dot: $.",
         rowIndex := -1 }]) ∧
    (evalPathEqualsAttr "t" "c"
      { id := "c", ctype := "path_equals_attr", key := "", caseSensitive := none,
        scope := "type", pathSelector := "path.file",
        references := some { rtype := "", key := "$." } }
      [{ typeName := "t", filePath := "x.json", data := Value.obj [("id", Value.str "1")],
         pathCaptures := [("path.file", "x.json")], rowIndex := -1 }] =
      [{ constraintID := "c", constraintType := "path_equals_attr", typeName := "t",
         filePath := "",
         message := "invalid references.key selector \x22$.\x22: "
           ++ "selector: trailing dot: $.",
         rowIndex := -1 }]) :=
  ⟨(parse_failure_isolation id (fun _ => []) [] "t" "c"
      { id := "c", ctype := "unique", key := "$.", caseSensitive := none,
        scope := "type", pathSelector := "", references := none }
      [{ typeName := "t", filePath := "x.json", data := Value.obj [("id", Value.str "1")],
         pathCaptures := [], rowIndex := -1 }]
      "selector: trailing dot: $.").1 rfl,
   (parse_failure_isolation id (fun _ => []) [] "t" "c"
      { id := "c", ctype := "foreign_key", key := "$.", caseSensitive := none,
        scope := "type", pathSelector := "",
        references := some { rtype := "r", key := "$.id" } }
      [{ typeName := "t", filePath := "x.json", data := Value.obj [("id", Value.str "1")],
         pathCaptures := [], rowIndex := -1 }]
      "selector: trailing dot: $.").2.1 { rtype := "r", key := "$.id" } rfl rfl,
   (parse_failure_isolation id (fun _ => []) [] "t" "c"
      { id := "c", ctype := "foreign_key", key := "$.id", caseSensitive := none,
        scope := "type", pathSelector := "",
        references := some { rtype := "r", key := "$." } }
      [{ typeName := "t", filePath := "x.json", data := Value.obj [("id", Value.str "1")],
         pathCaptures := [], rowIndex := -1 }]
      "selector: trailing dot: $.").2.2.1 { rtype := "r", key := "$." }
      { raw := "$.id", segments := [Segment.field "id"] } rfl rfl rfl,
   (parse_failure_isolation id (fun _ => []) [] "t" "c"
      { id := "c", ctype := "path_equals_attr", key := "", caseSensitive := none,
        scope := "type", pathSelector := "path.file",
        references := some { rtype := "", key := "$." } }
      [{ typeName := "t", filePath := "x.json", data := Value.obj [("id", Value.str "1")],
         pathCaptures := [("path.file", "x.json")], rowIndex := -1 }]
      "selector: trailing dot: $.").2.2.2.1 { rtype := "", key := "$." } rfl rfl⟩

/-! ### Determinism of the aggregate result under index iteration order -/

theorem flatMap_perm_congr {α β : Type} {l : List α} {f g : α → List β}
    (h : ∀ a ∈ l, List.Perm (f a) (g a)) : List.Perm (l.flatMap f) (l.flatMap g) := by
  induction l with
  | nil => exact List.Perm.refl _
  | cons a l ih =>
    rw [List.flatMap_cons, List.flatMap_cons]
    exact (h a (List.mem_cons_self _ _)).append
      (ih fun b hb => h b (List.mem_cons_of_mem _ hb))

/-- One constraint's violations under two faithful index iteration orders
are permutations of each other (they are equal except in the type-scope
unique case, where the groups are emitted in iteration order). -/
theorem evalConstraint_perm
    (enum1 enum2 : List (String × List Seen) → List (String × List Seen))
    (h1 : FaithfulEnum enum1) (h2 : FaithfulEnum enum2)
    (allItems : String → List Item) (tdName : String) (ci : Nat) (cd : ConstraintDef) :
    List.Perm (evalConstraint enum1 allItems tdName ci cd)
      (evalConstraint enum2 allItems tdName ci cd) := by
  unfold evalConstraint
  by_cases hu : cd.ctype = "unique"
  · rw [if_pos hu, if_pos hu]
    unfold evalUnique
    rcases hpp : Parse cd.key with e | sel
    · simp only [hpp]
      exact List.Perm.refl _
    · simp only [hpp]
      by_cases hd : (sel.IsScalar && cd.scope == "type") = true
      · rw [if_pos hd, if_pos hd]
        unfold evalUniqueTypeScope
        exact (List.Perm.flatMap_right _ (h1 _)).trans
          (List.Perm.flatMap_right _ (h2 _)).symm
      · rw [if_neg hd, if_neg hd]
  · rw [if_neg hu, if_neg hu]

/-- The unsorted violation aggregates under two faithful index iteration
orders are permutations of each other. -/
theorem rawErrors_perm
    (enum1 enum2 : List (String × List Seen) → List (String × List Seen))
    (h1 : FaithfulEnum enum1) (h2 : FaithfulEnum enum2)
    (allItems : String → List Item) (typeDefs : List TypeDef) :
    List.Perm (rawErrors enum1 allItems typeDefs) (rawErrors enum2 allItems typeDefs) := by
  unfold rawErrors
  refine flatMap_perm_congr fun td _ => ?_
  refine flatMap_perm_congr fun ic _ => ?_
  exact evalConstraint_perm enum1 enum2 h1 h2 allItems td.name ic.1 ic.2

/-- The stable insertion sort used in `Evaluate` is one implementation of
the `sort.Slice` contract. -/
theorem insertionSort_sortsByErrLE : SortsByErrLE fun l => l.insertionSort errLE :=
  fun l => ⟨List.perm_insertionSort errLE l, List.sorted_insertionSort errLE l⟩

/-- `Evaluate` is `EvaluateWith` at that implementation. -/
theorem Evaluate_eq_EvaluateWith
    (enum : List (String × List Seen) → List (String × List Seen))
    (allItems : String → List Item) (typeDefs : List TypeDef) :
    Evaluate enum allItems typeDefs =
      EvaluateWith (fun l => l.insertionSort errLE) enum allItems typeDefs := rfl

/-- Two sorted permutations of each other whose equal-key elements are
equal records coincide — the composite key pins the sequence without any
stability assumption. -/
theorem eq_of_perm_of_sorted_of_ties :
    ∀ {o1 o2 : List Error}, List.Perm o1 o2 → o1.Pairwise errLE → o2.Pairwise errLE →
      (∀ e1 ∈ o1, ∀ e2 ∈ o1, errKey e1 = errKey e2 → e1 = e2) → o1 = o2 := by
  intro o1
  induction o1 with
  | nil =>
    intro o2 hp _ _ _
    exact hp.nil_eq
  | cons x t1 ih =>
    intro o2 hp hs1 hs2 hties
    cases o2 with
    | nil =>
      rw [List.perm_nil] at hp
      cases hp
    | cons y t2 =>
      have hxy : x = y := by
        by_cases hxy' : x = y
        · exact hxy'
        · have hy1 : y ∈ x :: t1 := hp.mem_iff.mpr (List.mem_cons_self y t2)
          have hx2 : x ∈ y :: t2 := hp.mem_iff.mp (List.mem_cons_self x t1)
          have hy1' : y ∈ t1 := by
            rcases List.mem_cons.mp hy1 with h | h
            · exact absurd h.symm hxy'
            · exact h
          have hx2' : x ∈ t2 := by
            rcases List.mem_cons.mp hx2 with h | h
            · exact absurd h hxy'
            · exact h
          have hle1 : errLE x y := List.rel_of_pairwise_cons hs1 hy1'
          have hle2 : errLE y x := List.rel_of_pairwise_cons hs2 hx2'
          exact hties x (List.mem_cons_self _ _) y hy1 (errKey_eq_of_errLE hle1 hle2)
      subst hxy
      have hp' : List.Perm t1 t2 := hp.cons_inv
      rw [ih hp' (List.Pairwise.of_cons hs1) (List.Pairwise.of_cons hs2)
        fun e1 he1 e2 he2 hk =>
          hties e1 (List.mem_cons_of_mem _ he1) e2 (List.mem_cons_of_mem _ he2) hk]

/-- C7 amended: whenever no two distinct violations of the corpus share a
composite sort key (in particular items carry distinct (file path, row
index) pairs, constraint ids are distinct, and no item repeats two
different values under one item-scope constraint), the result of the
top-level evaluation is the same under any two faithful iteration orders
of the type-scope index — for every deterministic sorting function
satisfying the `sort.Slice` contract, the actual non-stable one included,
and in particular for `Evaluate` itself. -/
theorem evaluate_deterministic
    (enum1 enum2 : List (String × List Seen) → List (String × List Seen))
    (h1 : FaithfulEnum enum1) (h2 : FaithfulEnum enum2)
    (allItems : String → List Item) (typeDefs : List TypeDef)
    (hties : ∀ e1 ∈ rawErrors enum1 allItems typeDefs,
      ∀ e2 ∈ rawErrors enum1 allItems typeDefs, errKey e1 = errKey e2 → e1 = e2) :
    (∀ sortFn, SortsByErrLE sortFn →
      EvaluateWith sortFn enum1 allItems typeDefs =
        EvaluateWith sortFn enum2 allItems typeDefs) ∧
    Evaluate enum1 allItems typeDefs = Evaluate enum2 allItems typeDefs := by
  have hraw : List.Perm (rawErrors enum1 allItems typeDefs)
      (rawErrors enum2 allItems typeDefs) :=
    rawErrors_perm enum1 enum2 h1 h2 allItems typeDefs
  have main : ∀ sortFn, SortsByErrLE sortFn →
      EvaluateWith sortFn enum1 allItems typeDefs =
        EvaluateWith sortFn enum2 allItems typeDefs := by
    intro sortFn hsort
    obtain ⟨hp1, hs1⟩ := hsort (rawErrors enum1 allItems typeDefs)
    obtain ⟨hp2, hs2⟩ := hsort (rawErrors enum2 allItems typeDefs)
    apply eq_of_perm_of_sorted_of_ties (hp1.trans (hraw.trans hp2.symm)) hs1 hs2
    intro e1 he1 e2 he2 hk
    exact hties e1 (hp1.mem_iff.mp he1) e2 (hp1.mem_iff.mp he2) hk
  exact ⟨main, main _ insertionSort_sortsByErrLE⟩

/-- C7 as stated fails on the code, in both ways the composite key can
fail to pin the order.  First, on a corpus in which two items share a
(file path, row index) pair, two faithful iteration orders of the
type-scope index produce different `Evaluate` results outright.  Second,
even on the corpus `itemsD` whose items carry pairwise-distinct pairs, an
item-scope constraint emits two distinct violations tied on the composite
key, and a deterministic sorting function satisfying the `sort.Slice`
contract (`advSortD`) yields different results under the two iteration
orders — so no guarantee weaker than tie-freeness restores the claim. -/
theorem evaluate_order_counterexample :
    (FaithfulEnum id ∧ FaithfulEnum List.reverse ∧
    Evaluate id
      (fun n => if n = "t"
        then [{ typeName := "t", filePath := "f", data := Value.obj [("id", Value.str "x")],
                pathCaptures := [], rowIndex := -1 },
              { typeName := "t", filePath := "g", data := Value.obj [("id", Value.str "x")],
                pathCaptures := [], rowIndex := -1 },
              { typeName := "t", filePath := "f", data := Value.obj [("id", Value.str "y")],
                pathCaptures := [], rowIndex := -1 },
              { typeName := "t", filePath := "g", data := Value.obj [("id", Value.str "y")],
                pathCaptures := [], rowIndex := -1 }]
        else [])
      [{ name := "t",
         constraints :=
           [{ id := "u", ctype := "unique", key := "$.id", caseSensitive := none,
              scope := "type", pathSelector := "", references := none }] }] ≠
    Evaluate List.reverse
      (fun n => if n = "t"
        then [{ typeName := "t", filePath := "f", data := Value.obj [("id", Value.str "x")],
                pathCaptures := [], rowIndex := -1 },
              { typeName := "t", filePath := "g", data := Value.obj [("id", Value.str "x")],
                pathCaptures := [], rowIndex := -1 },
              { typeName := "t", filePath := "f", data := Value.obj [("id", Value.str "y")],
                pathCaptures := [], rowIndex := -1 },
              { typeName := "t", filePath := "g", data := Value.obj [("id", Value.str "y")],
                pathCaptures := [], rowIndex := -1 }]
        else [])
      [{ name := "t",
         constraints :=
           [{ id := "u", ctype := "unique", key := "$.id", caseSensitive := none,
              scope := "type", pathSelector := "", references := none }] }]) ∧
    (SortsByErrLE advSortD ∧
    (itemsD.map fun it => (it.filePath, it.rowIndex)).Nodup ∧
    EvaluateWith advSortD id allD tdsD ≠ EvaluateWith advSortD List.reverse allD tdsD) := by
  refine ⟨⟨fun idx => List.Perm.refl idx, fun idx => List.reverse_perm idx, by decide⟩,
    ?_, by decide, by decide⟩
  intro l
  unfold advSortD
  by_cases hl : l = rawErrors List.reverse allD tdsD
  · rw [if_pos hl, hl]
    exact ⟨by decide, by decide⟩
  · rw [if_neg hl]
    exact ⟨List.perm_insertionSort errLE l, List.sorted_insertionSort errLE l⟩

/-- A concrete instance of the amended determinism statement: on a corpus
with distinct file paths and tie-free violations, identity and reversal
iteration orders agree, both abstractly and for `Evaluate`. -/
theorem evaluate_deterministic_witness :
    (EvaluateWith (fun l => l.insertionSort errLE) id
      (fun n => if n = "user"
        then [{ typeName := "user", filePath := "a.json",
                data := Value.obj [("id", Value.str "1")], pathCaptures := [], rowIndex := -1 },
              { typeName := "user", filePath := "b.json",
                data := Value.obj [("id", Value.str "1")], pathCaptures := [], rowIndex := -1 }]
        else [])
      [{ name := "user",
         constraints :=
           [{ id := "u", ctype := "unique", key := "$.id", caseSensitive := none,
              scope := "type", pathSelector := "", references := none }] }] =
    EvaluateWith (fun l => l.insertionSort errLE) List.reverse
      (fun n => if n = "user"
        then [{ typeName := "user", filePath := "a.json",
                data := Value.obj [("id", Value.str "1")], pathCaptures := [], rowIndex := -1 },
              { typeName := "user", filePath := "b.json",
                data := Value.obj [("id", Value.str "1")], pathCaptures := [], rowIndex := -1 }]
        else [])
      [{ name := "user",
         constraints :=
           [{ id := "u", ctype := "unique", key := "$.id", caseSensitive := none,
              scope := "type", pathSelector := "", references := none }] }]) ∧
    Evaluate id
      (fun n => if n = "user"
        then [{ typeName := "user", filePath := "a.json",
                data := Value.obj [("id", Value.str "1")], pathCaptures := [], rowIndex := -1 },
              { typeName := "user", filePath := "b.json",
                data := Value.obj [("id", Value.str "1")], pathCaptures := [], rowIndex := -1 }]
        else [])
      [{ name := "user",
         constraints :=
           [{ id := "u", ctype := "unique", key := "$.id", caseSensitive := none,
              scope := "type", pathSelector := "", references := none }] }] =
    Evaluate List.reverse
      (fun n => if n = "user"
        then [{ typeName := "user", filePath := "a.json",
                data := Value.obj [("id", Value.str "1")], pathCaptures := [], rowIndex := -1 },
              { typeName := "user", filePath := "b.json",
                data := Value.obj [("id", Value.str "1")], pathCaptures := [], rowIndex := -1 }]
        else [])
      [{ name := "user",
         constraints :=
           [{ id := "u", ctype := "unique", key := "$.id", caseSensitive := none,
              scope := "type", pathSelector := "", references := none }] }] := by
  have h := evaluate_deterministic id List.reverse
    (fun idx => List.Perm.refl idx) (fun idx => List.reverse_perm idx)
    (fun n => if n = "user"
      then [{ typeName := "user", filePath := "a.json",
              data := Value.obj [("id", Value.str "1")], pathCaptures := [], rowIndex := -1 },
            { typeName := "user", filePath := "b.json",
              data := Value.obj [("id", Value.str "1")], pathCaptures := [], rowIndex := -1 }]
      else [])
    [{ name := "user",
       constraints :=
         [{ id := "u", ctype := "unique", key := "$.id", caseSensitive := none,
            scope := "type", pathSelector := "", references := none }] }]
    (by decide)
  exact ⟨h.1 _ insertionSort_sortsByErrLE, h.2⟩

end Datacur8
